import Mathlib

/-!
Verification of the Spend_Sight server storage layer and AI client.

The definitions below are a shallow embedding of the TypeScript source:

* server/storage.ts : the in-memory backend (MemStorage) and the
  document-database backend (MongoStorage).
* server/openai.ts (bundled at the end of server/routes.ts): the AI
  categorization / insight client.

Modelling conventions:
* JavaScript numbers (expense/budget amounts, confidence scores) are
  modelled as rationals.  The source performs only sums and comparisons on
  them, which the rational idealization reproduces exactly.
* Strings are Lean strings; JavaScript string comparison (used on the
  fixed-width ISO dates) is code-point lexicographic and is modelled by the
  executable comparison strLe below.
* JavaScript Map collections are modelled as association lists kept in
  insertion order, matching Map iteration order.
* Array.prototype.sort (a stable sort) is modelled by the stable insertion
  sort sortLe below; its comparator arguments mirror the source comparators.
* A Mongo query ModelX.find(filterDoc) is modelled as a Bool filter over the
  collection's document list; a possible driver failure is an explicit
  Option String argument (none = the call succeeds).
-/

namespace SpendSight

/-- Code-point lexicographic comparison of character lists, the order
JavaScript uses when comparing strings with the relational operators. -/
def lexLe : List Char → List Char → Bool
  | [], _ => true
  | _ :: _, [] => false
  | a :: as, b :: bs =>
    if a.toNat < b.toNat then true
    else if b.toNat < a.toNat then false
    else lexLe as bs

/-- JavaScript string comparison a <= b (code-point lexicographic). -/
def strLe (a b : String) : Bool := lexLe a.data b.data

/-- Insert an element into a list, before the first element it compares
le-to.  Together with sortLe this is the standard stable insertion sort. -/
def insertLe (le : α → α → Bool) (a : α) : List α → List α
  | [] => [a]
  | b :: bs => if le a b then a :: b :: bs else b :: insertLe le a bs

/-- Stable sort by the Bool comparator le; models Array.prototype.sort,
which is stable, with the comparator translated to a non-strict le test. -/
def sortLe (le : α → α → Bool) : List α → List α
  | [] => []
  | a :: as => insertLe le a (sortLe le as)

/-! ## Data model (shared/schema.ts entity records)

Timestamps (createdAt) are modelled as natural numbers (epoch
milliseconds); they are only ever compared for sorting.  Optional fields
use Option; a null / undefined field is none. -/

/-- A category row (schema.ts categories). -/
structure Category where
  id : String
  name : String
  color : String
  icon : String
  deriving Repr, DecidableEq

/-- An expense row (schema.ts expenses).  The amount is stored as a
number; the date is the ISO YYYY-MM-DD string. -/
structure Expense where
  id : String
  userId : String
  categoryId : Option String
  amount : ℚ
  description : String
  paymentMethod : String
  date : String
  createdAt : Nat
  deriving Repr, DecidableEq

/-- A budget row (schema.ts budgets). -/
structure Budget where
  id : String
  userId : String
  categoryId : Option String
  amount : ℚ
  period : String
  startDate : String
  endDate : String
  createdAt : Nat
  deriving Repr, DecidableEq

/-- An insight row (schema.ts insights).  isRead is the source's string
"true"/"false" flag. -/
structure Insight where
  id : String
  userId : String
  type : String
  title : String
  description : String
  priority : String
  isRead : String
  createdAt : Nat
  deriving Repr, DecidableEq

/-- An expense joined with its resolved category
(ExpenseWithCategory in shared/schema.ts): the expense record plus the
category lookup result (null when the reference is absent or dangling). -/
structure ExpenseWithCategory where
  exp : Expense
  category : Option Category
  deriving Repr, DecidableEq

/-- Result shape of getExpenseStats. -/
structure BreakdownEntry where
  categoryName : String
  amount : ℚ
  color : String
  deriving Repr, DecidableEq

/-- One dailyTrend entry of getExpenseStats. -/
structure TrendEntry where
  date : String
  amount : ℚ
  deriving Repr, DecidableEq

/-- Return value of getExpenseStats on either backend. -/
structure Stats where
  totalSpent : ℚ
  categoryBreakdown : List BreakdownEntry
  dailyTrend : List TrendEntry
  deriving Repr, DecidableEq

/-! ## In-memory backend (MemStorage, server/storage.ts)

The Map collections are association lists in insertion order (JavaScript
Map preserves insertion order and Array.from iterates it). -/

/-- The MemStorage state: one list per entity collection. -/
structure MemStorage where
  categories : List Category
  expenses : List Expense
  budgets : List Budget
  insights : List Insight
  deriving Repr, DecidableEq

/-- Category lookup used by the expense reads:
expense.categoryId ? this.categories.get(expense.categoryId) || null : null. -/
def resolveCategory (cats : List Category) (cid : Option String) : Option Category :=
  match cid with
  | none => none
  | some c =>
    match cats.find? (fun k => k.id == c) with
    | some cat => some cat
    | none => none

/-- Sort comparator of the expense reads:
(a, b) => new Date(b.date).getTime() - new Date(a.date).getTime(),
i.e. descending by date; on the fixed-width ISO dates the timestamp order
coincides with the lexicographic string order. -/
def dateDesc (a b : Expense) : Bool := strLe b.date a.date

/-- Sort comparator used on budgets and insights:
(a, b) => (b.createdAt?.getTime() || 0) - (a.createdAt?.getTime() || 0),
descending by creation time. -/
def createdDesc {α} (createdAt : α → Nat) (a b : α) : Bool :=
  createdAt b ≤ createdAt a

/-- MemStorage.getExpensesByUser(userId, limit = 50): the user's expenses,
newest date first, capped at limit, each joined with its category. -/
def MemStorage.getExpensesByUser (s : MemStorage) (userId : String)
    (limit : Nat := 50) : List ExpenseWithCategory :=
  (((sortLe dateDesc (s.expenses.filter (fun e => e.userId == userId))).take limit).map
    (fun e => ⟨e, resolveCategory s.categories e.categoryId⟩))

/-- MemStorage.getExpensesByUserAndDateRange(userId, startDate, endDate):
the user's expenses with startDate <= date <= endDate (string comparison),
newest date first, each joined with its category. -/
def MemStorage.getExpensesByUserAndDateRange (s : MemStorage) (userId startDate endDate : String) :
    List ExpenseWithCategory :=
  ((sortLe dateDesc (s.expenses.filter
      (fun e => e.userId == userId && strLe startDate e.date && strLe e.date endDate))).map
    (fun e => ⟨e, resolveCategory s.categories e.categoryId⟩))

/-- MemStorage.getBudgetsByUser(userId): the user's budgets, newest first. -/
def MemStorage.getBudgetsByUser (s : MemStorage) (userId : String) : List Budget :=
  sortLe (createdDesc Budget.createdAt) (s.budgets.filter (fun b => b.userId == userId))

/-- MemStorage.getInsightsByUser(userId): the user's insights, newest first. -/
def MemStorage.getInsightsByUser (s : MemStorage) (userId : String) : List Insight :=
  sortLe (createdDesc Insight.createdAt) (s.insights.filter (fun i => i.userId == userId))

/-- MemStorage.deleteExpense(id): this.expenses.delete(id) - removes the
row when present, completes silently either way. -/
def MemStorage.deleteExpense (s : MemStorage) (id : String) : MemStorage :=
  { s with expenses := s.expenses.filter (fun e => !(e.id == id)) }

/-- MemStorage.deleteBudget(id): this.budgets.delete(id). -/
def MemStorage.deleteBudget (s : MemStorage) (id : String) : MemStorage :=
  { s with budgets := s.budgets.filter (fun b => !(b.id == id)) }

/-- MemStorage.deleteCategory(id): this.categories.delete(id). -/
def MemStorage.deleteCategory (s : MemStorage) (id : String) : MemStorage :=
  { s with categories := s.categories.filter (fun c => !(c.id == id)) }

/-- The amount field of an insert/update payload: the wire format accepts a
decimal string or a number.  A well-formed decimal string is represented by
the rational it parses to, so parseFloat is the identity on the carried
value. -/
inductive AmountInput where
  | str (val : ℚ)
  | num (val : ℚ)
  deriving Repr, DecidableEq

/-- typeof amount === 'string' ? parseFloat(amount) : amount. -/
def AmountInput.parse : AmountInput → ℚ
  | .str v => v
  | .num v => v

/-- JavaScript truthiness of the amount value: a (nonempty) decimal string
is truthy; the number 0 is falsy. -/
def AmountInput.truthy : AmountInput → Bool
  | .str _ => true
  | .num v => !(v == 0)

/-- A Partial<InsertExpense> patch: none marks a field that is absent from
the request body (and therefore left unchanged by the object spread). -/
structure ExpensePatch where
  categoryId : Option (Option String) := none
  amount : Option AmountInput := none
  description : Option String := none
  paymentMethod : Option String := none
  date : Option String := none
  deriving Repr, DecidableEq

/-- The merged record { ...existing, ...expense, amount: expense.amount ?
(typeof ... ? parseFloat(...) : ...) : existing.amount } built by
updateExpense in both backends. -/
def applyExpensePatch (e : Expense) (p : ExpensePatch) : Expense :=
  { e with
    categoryId := p.categoryId.getD e.categoryId
    description := p.description.getD e.description
    paymentMethod := p.paymentMethod.getD e.paymentMethod
    date := p.date.getD e.date
    amount :=
      match p.amount with
      | some a => if a.truthy then a.parse else e.amount
      | none => e.amount }

/-- MemStorage.updateExpense(id, expense): looks the row up, throws
"Expense not found" when absent, otherwise stores and returns the merged
record.  The pair carries the outcome and the post-call state; on the
throwing path the state is unchanged. -/
def MemStorage.updateExpense (s : MemStorage) (id : String) (p : ExpensePatch) :
    Except String Expense × MemStorage :=
  match s.expenses.find? (fun e => e.id == id) with
  | none => (Except.error "Expense not found", s)
  | some existing =>
    let updated := applyExpensePatch existing p
    (Except.ok updated,
      { s with expenses := s.expenses.map (fun e => if e.id == id then updated else e) })

/-! ## Analytics aggregator, in-memory backend
(MemStorage.getExpenseStats, server/storage.ts) -/

/-- The running per-category aggregate: the Map value
{ amount, name, color } of the categoryMap in getExpenseStats. -/
structure CatAgg where
  name : String
  color : String
  amount : ℚ
  deriving Repr, DecidableEq

/-- One forEach step on the categoryMap: add to the amount of an existing
key, or append a new entry (JavaScript Map.set appends new keys at the
end of the iteration order). -/
def bumpCat (key name color : String) (amt : ℚ) :
    List (String × CatAgg) → List (String × CatAgg)
  | [] => [(key, ⟨name, color, amt⟩)]
  | (k, c) :: rest =>
    if key == k then (k, { c with amount := c.amount + amt }) :: rest
    else (k, c) :: bumpCat key name color amt rest

/-- One forEach step on the dailyMap (and the Mongo grouping): add to an
existing key or append a new one. -/
def addGroup {κ : Type} [BEq κ] (key : κ) (amt : ℚ) :
    List (κ × ℚ) → List (κ × ℚ)
  | [] => [(key, amt)]
  | (k, v) :: rest =>
    if key == k then (k, v + amt) :: rest
    else (k, v) :: addGroup key amt rest

/-- expense.category?.name || 'Uncategorized' (an empty name string is
falsy, like a missing category). -/
def displayName (c : Option Category) : String :=
  match c with
  | some cat => if cat.name == "" then "Uncategorized" else cat.name
  | none => "Uncategorized"

/-- expense.category?.color || '#6b7280'. -/
def displayColor (c : Option Category) : String :=
  match c with
  | some cat => if cat.color == "" then "#6b7280" else cat.color
  | none => "#6b7280"

/-- expense.categoryId || 'uncategorized', the grouping key. -/
def categoryKey (cid : Option String) : String :=
  match cid with
  | some c => if c == "" then "uncategorized" else c
  | none => "uncategorized"

/-- MemStorage.getExpenseStats(userId, startDate, endDate): selects the
user's in-range expenses, sums them, groups them by category key and by
date, and sorts the two breakdowns (amount descending, date ascending). -/
def MemStorage.getExpenseStats (s : MemStorage) (userId startDate endDate : String) : Stats :=
  let expenses := s.getExpensesByUserAndDateRange userId startDate endDate
  let totalSpent := (expenses.map (fun e => e.exp.amount)).sum
  let categoryMap := expenses.foldl
    (fun m e => bumpCat (categoryKey e.exp.categoryId) (displayName e.category)
      (displayColor e.category) e.exp.amount m) []
  let dailyMap := expenses.foldl (fun m e => addGroup e.exp.date e.exp.amount m) []
  let categoryBreakdown := sortLe (fun a b => decide (b.amount ≤ a.amount))
    (categoryMap.map (fun kc => BreakdownEntry.mk kc.2.name kc.2.amount kc.2.color))
  let dailyTrend := sortLe (fun a b => strLe a.date b.date)
    (dailyMap.map (fun kv => TrendEntry.mk kv.1 kv.2))
  ⟨totalSpent, categoryBreakdown, dailyTrend⟩

/-! ## Document-database backend (MongoStorage, server/storage.ts)

A read is modelled over the collection's document list together with an
explicit failure flag for the underlying driver call: dbFail = some msg
means Model.find(...) rejects with msg, dbFail = none means it resolves.
The query filter document becomes a Bool filter over the list. -/

/-- Model.find(filterDoc): the selected documents, or the driver error. -/
def mongoFind (dbFail : Option String) (docs : List α) (p : α → Bool) :
    Except String (List α) :=
  match dbFail with
  | some e => Except.error e
  | none => Except.ok (docs.filter p)

/-- Sort comparator .sort({ date: -1, createdAt: -1 }): date descending,
then creation time descending. -/
def mongoExpDesc (a b : Expense) : Bool :=
  if a.date == b.date then b.createdAt ≤ a.createdAt else strLe b.date a.date

/-- MongoStorage.getCategories(): CategoryModel.find().sort({name: 1})
inside try/catch - a failed call is caught and yields []. -/
def MongoStorage.getCategories (dbFail : Option String) (cats : List Category) :
    List Category :=
  match mongoFind dbFail cats (fun _ => true) with
  | Except.error _ => []
  | Except.ok l => sortLe (fun a b => strLe a.name b.name) l

/-- Per-row category lookup of the Mongo expense reads:
cat ? { ...cat } : null. -/
def mongoWithCategory (cats : List Category) (e : Expense) : ExpenseWithCategory :=
  ⟨e, resolveCategory cats e.categoryId⟩

/-- MongoStorage.getExpensesByUser(userId, limit = 50):
ExpenseModel.find({userId}).sort({date: -1, createdAt: -1}).limit(limit),
then a category lookup per row.  There is no try/catch: a driver failure
propagates to the caller. -/
def MongoStorage.getExpensesByUser (dbFail : Option String) (docs : List Expense)
    (cats : List Category) (userId : String) (limit : Nat := 50) :
    Except String (List ExpenseWithCategory) :=
  (mongoFind dbFail docs (fun e => e.userId == userId)).map
    (fun l => ((sortLe mongoExpDesc l).take limit).map (mongoWithCategory cats))

/-- MongoStorage.getExpensesByUserAndDateRange(userId, startDate, endDate):
ExpenseModel.find({userId, date: {gte startDate, lte endDate}}) sorted the
same way, then a category lookup per row.  No try/catch: failures
propagate. -/
def MongoStorage.getExpensesByUserAndDateRange (dbFail : Option String)
    (docs : List Expense) (cats : List Category) (userId startDate endDate : String) :
    Except String (List ExpenseWithCategory) :=
  (mongoFind dbFail docs
      (fun e => e.userId == userId && strLe startDate e.date && strLe e.date endDate)).map
    (fun l => (sortLe mongoExpDesc l).map (mongoWithCategory cats))

/-- MongoStorage.getInsightsByUser(userId):
InsightModel.find({userId}).sort({createdAt: -1}).  No try/catch. -/
def MongoStorage.getInsightsByUser (dbFail : Option String) (docs : List Insight)
    (userId : String) : Except String (List Insight) :=
  (mongoFind dbFail docs (fun i => i.userId == userId)).map
    (sortLe (createdDesc Insight.createdAt))

/-- MongoStorage.getBudgetsByUser(userId):
BudgetModel.find({userId}).sort({createdAt: -1}).  No try/catch. -/
def MongoStorage.getBudgetsByUser (dbFail : Option String) (docs : List Budget)
    (userId : String) : Except String (List Budget) :=
  (mongoFind dbFail docs (fun b => b.userId == userId)).map
    (sortLe (createdDesc Budget.createdAt))

/-- MongoStorage.updateExpense(id, expense):
ExpenseModel.findByIdAndUpdate(id, updateData, {new: true}) returns null
for a missing id, and the function then throws "Expense not found".  The
pair carries the outcome and the post-call collection. -/
def MongoStorage.updateExpense (docs : List Expense) (id : String) (p : ExpensePatch) :
    Except String Expense × List Expense :=
  match docs.find? (fun e => e.id == id) with
  | none => (Except.error "Expense not found", docs)
  | some existing =>
    let updated := applyExpensePatch existing p
    (Except.ok updated, docs.map (fun e => if e.id == id then updated else e))

/-- MongoStorage.deleteExpense(id): ExpenseModel.findByIdAndDelete(id) -
deletes the document when present and resolves either way (a missing id is
not an error). -/
def MongoStorage.deleteExpense (docs : List Expense) (id : String) : List Expense :=
  docs.filter (fun e => !(e.id == id))

/-- MongoStorage.deleteBudget(id): BudgetModel.findByIdAndDelete(id). -/
def MongoStorage.deleteBudget (docs : List Budget) (id : String) : List Budget :=
  docs.filter (fun b => !(b.id == id))

/-- MongoStorage.deleteCategory(id): CategoryModel.findByIdAndDelete(id). -/
def MongoStorage.deleteCategory (docs : List Category) (id : String) : List Category :=
  docs.filter (fun c => !(c.id == id))

/-- The categoryBreakdown row construction of MongoStorage.getExpenseStats:
item._id truthy triggers a category lookup, a found category supplies name
and color, anything else degrades to the Uncategorized sentinel. -/
def mongoBreakdownEntry (cats : List Category) (kv : Option String × ℚ) : BreakdownEntry :=
  match kv.1 with
  | some cid =>
    if cid == "" then ⟨"Uncategorized", kv.2, "#6b7280"⟩
    else
      match cats.find? (fun c => c.id == cid) with
      | some c => ⟨c.name, kv.2, c.color⟩
      | none => ⟨"Uncategorized", kv.2, "#6b7280"⟩
  | none => ⟨"Uncategorized", kv.2, "#6b7280"⟩

/-- MongoStorage.getExpenseStats(userId, startDate, endDate): three
aggregation pipelines over the matched documents - a total sum, a sum
grouped by categoryId sorted amount-descending (with a per-group category
lookup), and a sum grouped by date sorted date-ascending. -/
def MongoStorage.getExpenseStats (docs : List Expense) (cats : List Category)
    (userId startDate endDate : String) : Stats :=
  let matched := docs.filter
    (fun e => e.userId == userId && strLe startDate e.date && strLe e.date endDate)
  let totalSpent := (matched.map (fun e => e.amount)).sum
  let categoryResult := sortLe (fun a b => decide (b.2 ≤ a.2))
    (matched.foldl (fun m e => addGroup e.categoryId e.amount m) [])
  let categoryBreakdown := categoryResult.map (mongoBreakdownEntry cats)
  let dailyResult := sortLe (fun a b => strLe a.1 b.1)
    (matched.foldl (fun m e => addGroup e.date e.amount m) [])
  let dailyTrend := dailyResult.map (fun kv => TrendEntry.mk kv.1 kv.2)
  ⟨totalSpent, categoryBreakdown, dailyTrend⟩

/-! ## AI insight / categorization client (server/openai.ts, bundled at the
end of server/routes.ts)

The remote model call and the subsequent JSON parse are abstracted by an
outcome value: the call can throw (network failure / timeout), return an
empty body (response.text falsy - the code then throws inside its try
block), return a body JSON.parse rejects (parse throws inside the try
block), or return a parsed JSON value.  Every throwing path lands in the
surrounding catch. -/

/-- Outcome of one remote model call as observed by the client code. -/
inductive AiResult (α : Type) where
  | throws
  | emptyBody
  | badJson
  | parsed (a : α)
  deriving Repr, DecidableEq

/-- The client's categorization result record. -/
structure ExpenseCategorization where
  category : String
  confidence : ℚ
  reasoning : String
  deriving Repr, DecidableEq

/-- One typed insight record produced by the client. -/
structure AIInsight where
  type : String
  title : String
  description : String
  priority : String
  deriving Repr, DecidableEq

/-- The parsed JSON body of a categorization response; every field may be
missing. -/
structure CatJson where
  category : Option String := none
  confidence : Option ℚ := none
  reasoning : Option String := none
  deriving Repr, DecidableEq

/-- One parsed insight object of an insights response. -/
structure InsightJson where
  type : Option String := none
  title : Option String := none
  description : Option String := none
  priority : Option String := none
  deriving Repr, DecidableEq

/-- The parsed JSON body of an insights response. -/
structure InsightsJson where
  insights : Option (List InsightJson) := none
  deriving Repr, DecidableEq

/-- JavaScript x || d on an optional string: a missing or empty string
falls back to the default. -/
def jsOrString (o : Option String) (d : String) : String :=
  match o with
  | some s => if s == "" then d else s
  | none => d

/-- JavaScript x || d on an optional number: a missing value or 0 falls
back to the default. -/
def jsOrNum (o : Option ℚ) (d : ℚ) : ℚ :=
  match o with
  | some v => if v == 0 then d else v
  | none => d

/-- The catch-block fallback of categorizeExpense. -/
def catFallback : ExpenseCategorization :=
  ⟨"shopping", 1/10, "Default categorization due to AI service error"⟩

/-- categorizeExpense(description, amount): normalizes a parsed response
(result.category || 'shopping', confidence clamped into [0, 1] after
result.confidence || 0.5, result.reasoning || default text); every failure
of the call, an empty body, and a JSON parse error all fall into the catch
block, which returns the fixed fallback - the function never rejects.
The description and amount only feed the prompt of the remote call, which
the AiResult argument abstracts. -/
def categorizeExpense (description : String) (amount : ℚ)
    (r : AiResult CatJson) : ExpenseCategorization :=
  match r with
  | .parsed a =>
    ⟨jsOrString a.category "shopping",
      max 0 (min 1 (jsOrNum a.confidence (1/2))),
      jsOrString a.reasoning "AI categorization based on description"⟩
  | _ => catFallback

/-- ['alert', 'goal', 'warning', 'recommendation'].includes(insight.type)
? insight.type : 'recommendation', and the analogous priority check. -/
def normalizeInsight (i : InsightJson) : AIInsight :=
  { type :=
      match i.type with
      | some t => if ["alert", "goal", "warning", "recommendation"].contains t then t
                  else "recommendation"
      | none => "recommendation"
    title := jsOrString i.title "Financial Insight"
    description := jsOrString i.description
      "Review your spending patterns for better financial health."
    priority :=
      match i.priority with
      | some p => if ["low", "medium", "high"].contains p then p else "medium"
      | none => "medium" }

/-- The catch-block fallback of generateInsights: three fixed
encouragement insights. -/
def insightsFallback : List AIInsight :=
  [⟨"recommendation", "Track Your Expenses",
      "Continue logging your expenses to get personalized AI insights and recommendations.",
      "medium"⟩,
    ⟨"goal", "Building Financial Habits",
      "Every expense you track helps build better financial awareness and spending habits.",
      "low"⟩,
    ⟨"warning", "AI Insights Unavailable",
      "AI insights are temporarily unavailable. Keep tracking expenses for future analysis.",
      "low"⟩]

/-- One current- or previous-period expense row handed to
generateInsights by the routes. -/
structure PromptExpense where
  amount : ℚ
  categoryName : String
  date : String
  description : String
  deriving Repr, DecidableEq

/-- One budget row handed to generateInsights by the routes. -/
structure PromptBudget where
  categoryName : String
  amount : ℚ
  deriving Repr, DecidableEq

/-- generateInsights(expenses, previousMonthExpenses, budgets): builds a
spending summary for the prompt (the expense and budget arguments only
feed that prompt), then maps (result.insights || []) through the
per-record normalization; every failure of the call, an empty body, and a
JSON parse error all land in the catch block, which returns the three
fixed fallback insights - the function never rejects. -/
def generateInsights (expenses previousMonthExpenses : List PromptExpense)
    (budgets : List PromptBudget) (r : AiResult InsightsJson) : List AIInsight :=
  match r with
  | .parsed a => (a.insights.getD []).map normalizeInsight
  | _ => insightsFallback

/-- The expense fetch of the POST /api/insights/generate route
(server/routes.ts): storage.getExpensesByUser(userId) with no explicit
limit, hence the backend's default cap. -/
def insightsRouteFetch (s : MemStorage) (userId : String) : List ExpenseWithCategory :=
  s.getExpensesByUser userId

/-- Total amount carried by a category map. -/
def catMapSum (m : List (String × CatAgg)) : ℚ :=
  (m.map (fun kc => kc.2.amount)).sum

/-- Total amount carried by a grouped sum. -/
def groupSumTotal {κ : Type} (m : List (κ × ℚ)) : ℚ :=
  (m.map Prod.snd).sum

/-- A sample in-memory store used by the concrete witnesses: one user u1
with two expenses (a newer and an older one), and one dangling category
reference. -/
def sampleStore : MemStorage :=
  ⟨[],
    [⟨"a1", "u1", some "deadcat", 5, "Lunch", "cash", "2024-01-01", 10⟩,
      ⟨"b2", "u1", none, 7, "Taxi", "upi", "2024-01-05", 20⟩],
    [], []⟩

/-- A mixed concrete store: one live category next to a dangling category
reference (the state left behind by deleting one category while others
stay live). -/
def mixedStore : MemStorage :=
  ⟨[⟨"catA", "Food & Dining", "#ef4444", "i1"⟩],
    [⟨"a1", "u1", some "catA", 5, "Lunch", "cash", "2024-01-01", 10⟩,
      ⟨"b2", "u1", some "deadcat", 7, "Taxi", "upi", "2024-01-05", 20⟩],
    [], []⟩

/-! ## Supporting lemmas -/

theorem lexLe_total : ∀ as bs : List Char, lexLe as bs || lexLe bs as := by
  intro as
  induction as with
  | nil => intro bs; simp [lexLe]
  | cons a as ih =>
    intro bs
    cases bs with
    | nil => simp [lexLe]
    | cons b bs =>
      by_cases hab : a.toNat < b.toNat
      · simp [lexLe, hab]
      · by_cases hba : b.toNat < a.toNat
        · simp [lexLe, hab, hba]
        · simpa [lexLe, hab, hba] using ih bs

theorem lexLe_trans : ∀ as bs cs : List Char,
    lexLe as bs = true → lexLe bs cs = true → lexLe as cs = true := by
  intro as
  induction as with
  | nil => intro bs cs _ _; simp [lexLe]
  | cons a as ih =>
    intro bs cs h1 h2
    cases bs with
    | nil => simp [lexLe] at h1
    | cons b bs =>
      cases cs with
      | nil => simp [lexLe] at h2
      | cons c cs =>
        simp only [lexLe] at h1 h2 ⊢
        by_cases hab : a.toNat < b.toNat
        · by_cases hbc : b.toNat < c.toNat
          · have : a.toNat < c.toNat := Nat.lt_trans hab hbc
            simp [this]
          · by_cases hcb : c.toNat < b.toNat
            · simp [hab, hbc, hcb] at h2
            · have hbceq : b.toNat = c.toNat := Nat.le_antisymm (Nat.le_of_not_lt hcb) (Nat.le_of_not_lt hbc)
              have : a.toNat < c.toNat := hbceq ▸ hab
              simp [this]
        · by_cases hba : b.toNat < a.toNat
          · simp [hab, hba] at h1
          · have habeq : a.toNat = b.toNat := Nat.le_antisymm (Nat.le_of_not_lt hba) (Nat.le_of_not_lt hab)
            by_cases hbc : b.toNat < c.toNat
            · have : a.toNat < c.toNat := habeq ▸ hbc
              simp [this]
            · by_cases hcb : c.toNat < b.toNat
              · simp [hab, hba, hbc, hcb] at h2
              · have hbceq : b.toNat = c.toNat := Nat.le_antisymm (Nat.le_of_not_lt hcb) (Nat.le_of_not_lt hbc)
                have hac : ¬ a.toNat < c.toNat := by omega
                have hca : ¬ c.toNat < a.toNat := by omega
                have h1' : lexLe as bs = true := by simpa [hab, hba] using h1
                have h2' : lexLe bs cs = true := by simpa [hbc, hcb] using h2
                simpa [hac, hca] using ih bs cs h1' h2'

theorem strLe_total (a b : String) : strLe a b || strLe b a := lexLe_total a.data b.data

theorem strLe_trans {a b c : String} (h1 : strLe a b = true) (h2 : strLe b c = true) :
    strLe a c = true := lexLe_trans a.data b.data c.data h1 h2

theorem insertLe_perm (le : α → α → Bool) (a : α) :
    ∀ l : List α, List.Perm (insertLe le a l) (a :: l) := by
  intro l
  induction l with
  | nil => simp [insertLe]
  | cons b bs ih =>
    by_cases h : le a b
    · simp [insertLe, h]
    · simp only [insertLe, h, if_false]
      exact (List.Perm.cons b ih).trans (List.Perm.swap a b bs)

theorem sortLe_perm (le : α → α → Bool) :
    ∀ l : List α, List.Perm (sortLe le l) l := by
  intro l
  induction l with
  | nil => simp [sortLe]
  | cons a as ih =>
    exact (insertLe_perm le a (sortLe le as)).trans (List.Perm.cons a ih)

theorem mem_sortLe {le : α → α → Bool} {l : List α} {x : α} :
    x ∈ sortLe le l ↔ x ∈ l := (sortLe_perm le l).mem_iff

theorem sortLe_length (le : α → α → Bool) (l : List α) :
    (sortLe le l).length = l.length := (sortLe_perm le l).length_eq

theorem mem_insertLe {le : α → α → Bool} {l : List α} {a x : α} :
    x ∈ insertLe le a l ↔ x = a ∨ x ∈ l := by
  rw [(insertLe_perm le a l).mem_iff]; simp

theorem pairwise_insertLe {le : α → α → Bool}
    (htot : ∀ a b, le a b || le b a)
    (htrans : ∀ a b c, le a b = true → le b c = true → le a c = true)
    {l : List α} {a : α}
    (h : List.Pairwise (fun x y => le x y = true) l) :
    List.Pairwise (fun x y => le x y = true) (insertLe le a l) := by
  induction l with
  | nil => simp [insertLe]
  | cons b bs ih =>
    rcases List.pairwise_cons.mp h with ⟨hb, hbs⟩
    by_cases hab : le a b
    · rw [insertLe, if_pos hab]
      refine List.pairwise_cons.mpr ⟨?_, h⟩
      intro x hx
      rcases List.mem_cons.mp hx with rfl | hxbs
      · exact hab
      · exact htrans a b x hab (hb x hxbs)
    · have hba : le b a := by
        have := htot a b
        simpa [hab] using this
      rw [insertLe, if_neg hab]
      refine List.pairwise_cons.mpr ⟨?_, ih hbs⟩
      intro x hx
      rcases mem_insertLe.mp hx with rfl | hxbs
      · exact hba
      · exact hb x hxbs

theorem pairwise_sortLe {le : α → α → Bool}
    (htot : ∀ a b, le a b || le b a)
    (htrans : ∀ a b c, le a b = true → le b c = true → le a c = true)
    (l : List α) :
    List.Pairwise (fun x y => le x y = true) (sortLe le l) := by
  induction l with
  | nil => simp [sortLe]
  | cons a as ih => exact pairwise_insertLe htot htrans ih

theorem sortLe_map_sum (le : α → α → Bool) (f : α → ℚ) (l : List α) :
    ((sortLe le l).map f).sum = (l.map f).sum :=
  ((sortLe_perm le l).map f).sum_eq

theorem catMapSum_bumpCat (key nm cl : String) (amt : ℚ) :
    ∀ m : List (String × CatAgg),
      catMapSum (bumpCat key nm cl amt m) = catMapSum m + amt := by
  intro m
  induction m with
  | nil => simp [bumpCat, catMapSum]
  | cons kc rest ih =>
    obtain ⟨k, c⟩ := kc
    by_cases h : key == k
    · simp only [bumpCat, h, if_pos]
      simp [catMapSum]
      ring
    · simp only [bumpCat, h, if_neg, Bool.false_eq_true, not_false_iff]
      simp only [catMapSum, List.map_cons, List.sum_cons] at ih ⊢
      rw [ih]
      ring

theorem catMapSum_foldl {β : Type} (key nm cl : β → String) (amt : β → ℚ)
    (L : List β) :
    ∀ m, catMapSum (L.foldl (fun m e => bumpCat (key e) (nm e) (cl e) (amt e) m) m) =
      catMapSum m + (L.map amt).sum := by
  induction L with
  | nil => intro m; simp
  | cons e L ih =>
    intro m
    simp only [List.foldl_cons, List.map_cons, List.sum_cons]
    rw [ih, catMapSum_bumpCat]
    ring

theorem groupSumTotal_addGroup {κ : Type} [BEq κ] (key : κ) (amt : ℚ) :
    ∀ m : List (κ × ℚ), groupSumTotal (addGroup key amt m) = groupSumTotal m + amt := by
  intro m
  induction m with
  | nil => simp [addGroup, groupSumTotal]
  | cons kv rest ih =>
    obtain ⟨k, v⟩ := kv
    by_cases h : key == k
    · simp only [addGroup, h, if_pos]
      simp [groupSumTotal]
      ring
    · simp only [addGroup, h, if_neg, Bool.false_eq_true, not_false_iff]
      simp only [groupSumTotal, List.map_cons, List.sum_cons] at ih ⊢
      rw [ih]
      ring

theorem groupSumTotal_foldl {β κ : Type} [BEq κ] (key : β → κ) (amt : β → ℚ)
    (L : List β) :
    ∀ m, groupSumTotal (L.foldl (fun m e => addGroup (key e) (amt e) m) m) =
      groupSumTotal m + (L.map amt).sum := by
  induction L with
  | nil => intro m; simp
  | cons e L ih =>
    intro m
    simp only [List.foldl_cons, List.map_cons, List.sum_cons]
    rw [ih, groupSumTotal_addGroup]
    ring

/-- Every row returned by MemStorage.getExpensesByUser comes from the
store, belongs to the requested user, and carries the category lookup of
its own categoryId. -/
theorem mem_getExpensesByUser {s : MemStorage} {u : String} {limit : Nat}
    {r : ExpenseWithCategory} (h : r ∈ s.getExpensesByUser u limit) :
    r.exp ∈ s.expenses ∧ r.exp.userId = u ∧
      r.category = resolveCategory s.categories r.exp.categoryId := by
  simp only [MemStorage.getExpensesByUser, List.mem_map] at h
  obtain ⟨e, he, rfl⟩ := h
  have he2 : e ∈ sortLe dateDesc (s.expenses.filter (fun e => e.userId == u)) :=
    List.mem_of_mem_take he
  have he3 := mem_sortLe.mp he2
  have he4 := List.mem_filter.mp he3
  refine ⟨he4.1, ?_, rfl⟩
  simpa using he4.2

/-- Every row returned by MemStorage.getExpensesByUserAndDateRange comes
from the store, belongs to the requested user, lies in the requested date
range, and carries the category lookup of its own categoryId. -/
theorem mem_getExpensesByUserAndDateRange {s : MemStorage} {u sd ed : String}
    {r : ExpenseWithCategory} (h : r ∈ s.getExpensesByUserAndDateRange u sd ed) :
    r.exp ∈ s.expenses ∧ r.exp.userId = u ∧
      strLe sd r.exp.date = true ∧ strLe r.exp.date ed = true ∧
      r.category = resolveCategory s.categories r.exp.categoryId := by
  simp only [MemStorage.getExpensesByUserAndDateRange, List.mem_map] at h
  obtain ⟨e, he, rfl⟩ := h
  have he3 := mem_sortLe.mp he
  have he4 := List.mem_filter.mp he3
  have hp := he4.2
  simp only [Bool.and_eq_true, beq_iff_eq] at hp
  exact ⟨he4.1, hp.1.1, hp.1.2, hp.2, rfl⟩

/-! ## Claim theorems -/

/-- C1: for every user, date range and stored expense set, the in-memory
getExpenseStats totalSpent is the sum of amount over exactly the user's
expenses whose date lies lexicographically in the inclusive range, and an
expense outside the selection (wrong user or out-of-range date)
contributes nothing to any part of the result, categoryBreakdown and
dailyTrend included. -/
theorem c1_expenseStats_range_exact (s : MemStorage) (u sd ed : String) :
    (s.getExpenseStats u sd ed).totalSpent =
      ((s.expenses.filter
        (fun e => e.userId == u && strLe sd e.date && strLe e.date ed)).map
        (fun e => e.amount)).sum
    ∧ ∀ x : Expense,
        (x.userId == u && strLe sd x.date && strLe x.date ed) = false →
        MemStorage.getExpenseStats
          { s with expenses := s.expenses ++ [x] } u sd ed =
          s.getExpenseStats u sd ed := by
  constructor
  · simp only [MemStorage.getExpenseStats, MemStorage.getExpensesByUserAndDateRange,
      List.map_map]
    rw [show ((fun e : ExpenseWithCategory => e.exp.amount) ∘
        fun e => (⟨e, resolveCategory s.categories e.categoryId⟩ : ExpenseWithCategory)) =
        fun e : Expense => e.amount from rfl]
    exact sortLe_map_sum _ _ _
  · intro x hx
    have hfil : List.filter
        (fun e => e.userId == u && strLe sd e.date && strLe e.date ed)
        (s.expenses ++ [x]) =
        List.filter (fun e => e.userId == u && strLe sd e.date && strLe e.date ed)
        s.expenses := by
      rw [List.filter_append]
      simp [List.filter, hx]
    simp only [MemStorage.getExpenseStats, MemStorage.getExpensesByUserAndDateRange]
    rw [hfil]

/-- C1 witness: appending an out-of-range expense (another user's row) to
the concrete sample store leaves the stats of the queried range unchanged,
via the theorem. -/
theorem c1_expenseStats_range_exact_witness :
    MemStorage.getExpenseStats
        { sampleStore with expenses := sampleStore.expenses ++
            [⟨"z9", "u2", none, 100, "Other user", "cash", "2024-01-03", 30⟩] }
        "u1" "2024-01-01" "2024-01-31" =
      sampleStore.getExpenseStats "u1" "2024-01-01" "2024-01-31" :=
  (c1_expenseStats_range_exact sampleStore "u1" "2024-01-01" "2024-01-31").2
    ⟨"z9", "u2", none, 100, "Other user", "cash", "2024-01-03", 30⟩ (by decide)

/-- C8: on both backends the categoryBreakdown amounts of getExpenseStats
sum exactly to totalSpent (the grouping partitions the selected expenses;
in the rational idealization of JavaScript numbers the identity is
exact). -/
theorem c8_breakdown_sums_to_total (s : MemStorage) (docs : List Expense)
    (cats : List Category) (u sd ed : String) :
    (((s.getExpenseStats u sd ed).categoryBreakdown.map (fun b => b.amount)).sum =
        (s.getExpenseStats u sd ed).totalSpent)
    ∧ (((MongoStorage.getExpenseStats docs cats u sd ed).categoryBreakdown.map
          (fun b => b.amount)).sum =
        (MongoStorage.getExpenseStats docs cats u sd ed).totalSpent) := by
  constructor
  · simp only [MemStorage.getExpenseStats]
    rw [sortLe_map_sum, List.map_map]
    rw [show ((fun b : BreakdownEntry => b.amount) ∘
        fun kc : String × CatAgg => BreakdownEntry.mk kc.2.name kc.2.amount kc.2.color) =
        fun kc : String × CatAgg => kc.2.amount from rfl]
    have := catMapSum_foldl
      (fun e : ExpenseWithCategory => categoryKey e.exp.categoryId)
      (fun e => displayName e.category) (fun e => displayColor e.category)
      (fun e => e.exp.amount)
      (s.getExpensesByUserAndDateRange u sd ed) []
    simpa [catMapSum] using this
  · simp only [MongoStorage.getExpenseStats]
    rw [List.map_map]
    rw [show ((fun b : BreakdownEntry => b.amount) ∘ mongoBreakdownEntry cats) =
        fun kv : Option String × ℚ => kv.2 from ?_]
    · rw [sortLe_map_sum]
      have := groupSumTotal_foldl (fun e : Expense => e.categoryId)
        (fun e => e.amount)
        (docs.filter
          (fun e => e.userId == u && strLe sd e.date && strLe e.date ed)) []
      simpa [groupSumTotal] using this
    · funext kv
      simp only [Function.comp_apply, mongoBreakdownEntry]
      rcases kv with ⟨k, v⟩
      cases k with
      | none => rfl
      | some cid =>
        by_cases h : cid == ""
        · simp [h]
        · simp only [h, if_neg, Bool.false_eq_true, not_false_iff]
          cases cats.find? (fun c => c.id == cid) <;> rfl

/-- Elimination helper for a successful Mongo read: a .ok result of a
post-processed find determines the returned list. -/
theorem mongoFind_map_ok {α β : Type} {dbFail : Option String} {docs : List α}
    {p : α → Bool} {f : List α → β} {y : β}
    (h : (mongoFind dbFail docs p).map f = Except.ok y) :
    y = f (docs.filter p) := by
  cases dbFail with
  | some m => simp [mongoFind, Except.map] at h
  | none =>
    simp only [mongoFind, Except.map] at h
    exact (Except.ok.injEq _ _ |>.mp h).symm

/-- C2: every by-user read of either backend returns only rows owned by
the requested user - the in-memory reads filter on userId, the
document-database reads query on userId; no row of another user can
appear in any result. -/
theorem c2_by_user_reads_filter_owner (s : MemStorage) (u sd ed : String)
    (limit : Nat) (dbFail : Option String) (edocs : List Expense)
    (cats : List Category) (bdocs : List Budget) (idocs : List Insight) :
    (∀ r ∈ s.getExpensesByUser u limit, r.exp.userId = u)
    ∧ (∀ r ∈ s.getExpensesByUserAndDateRange u sd ed, r.exp.userId = u)
    ∧ (∀ b ∈ s.getBudgetsByUser u, b.userId = u)
    ∧ (∀ i ∈ s.getInsightsByUser u, i.userId = u)
    ∧ (∀ l, MongoStorage.getExpensesByUser dbFail edocs cats u limit = Except.ok l →
        ∀ r ∈ l, r.exp.userId = u)
    ∧ (∀ l, MongoStorage.getExpensesByUserAndDateRange dbFail edocs cats u sd ed =
          Except.ok l → ∀ r ∈ l, r.exp.userId = u)
    ∧ (∀ l, MongoStorage.getBudgetsByUser dbFail bdocs u = Except.ok l →
        ∀ b ∈ l, b.userId = u)
    ∧ (∀ l, MongoStorage.getInsightsByUser dbFail idocs u = Except.ok l →
        ∀ i ∈ l, i.userId = u) := by
  refine ⟨?_, ?_, ?_, ?_, ?_, ?_, ?_, ?_⟩
  · intro r hr
    exact (mem_getExpensesByUser hr).2.1
  · intro r hr
    exact (mem_getExpensesByUserAndDateRange hr).2.1
  · intro b hb
    have := List.mem_filter.mp (mem_sortLe.mp hb)
    simpa using this.2
  · intro i hi
    have := List.mem_filter.mp (mem_sortLe.mp hi)
    simpa using this.2
  · intro l hl r hr
    have hy := mongoFind_map_ok hl
    subst hy
    simp only [List.mem_map] at hr
    obtain ⟨e, he, rfl⟩ := hr
    have he2 := mem_sortLe.mp (List.mem_of_mem_take he)
    have := List.mem_filter.mp he2
    simpa [mongoWithCategory] using this.2
  · intro l hl r hr
    have hy := mongoFind_map_ok hl
    subst hy
    simp only [List.mem_map] at hr
    obtain ⟨e, he, rfl⟩ := hr
    have he2 := mem_sortLe.mp he
    have := List.mem_filter.mp he2
    simp only [Bool.and_eq_true, beq_iff_eq] at this
    simpa [mongoWithCategory] using this.2.1.1
  · intro l hl b hb
    have hy := mongoFind_map_ok hl
    subst hy
    have := List.mem_filter.mp (mem_sortLe.mp hb)
    simpa using this.2
  · intro l hl i hi
    have hy := mongoFind_map_ok hl
    subst hy
    have := List.mem_filter.mp (mem_sortLe.mp hi)
    simpa using this.2

/-- C2 witness: on the concrete sample store the one-row result of
getExpensesByUser is owned by u1, via the theorem. -/
theorem c2_by_user_reads_filter_owner_witness :
    (⟨⟨"b2", "u1", none, 7, "Taxi", "upi", "2024-01-05", 20⟩, none⟩ :
      ExpenseWithCategory).exp.userId = "u1" :=
  (c2_by_user_reads_filter_owner sampleStore "u1" "2024-01-01" "2024-01-31" 1
      none [] [] [] []).1
    ⟨⟨"b2", "u1", none, 7, "Taxi", "upi", "2024-01-05", 20⟩, none⟩ (by decide)

/-- C5: updateExpense on an id that is not in the store fails with the
"Expense not found" error on both backends, and the expense collection is
unchanged by the failed call. -/
theorem c5_update_missing_id_errors (s : MemStorage) (docs : List Expense)
    (id : String) (p : ExpensePatch) :
    (s.expenses.find? (fun e => e.id == id) = none →
      s.updateExpense id p = (Except.error "Expense not found", s))
    ∧ (docs.find? (fun e => e.id == id) = none →
      MongoStorage.updateExpense docs id p = (Except.error "Expense not found", docs)) := by
  constructor
  · intro h
    simp [MemStorage.updateExpense, h]
  · intro h
    simp [MongoStorage.updateExpense, h]

/-- C5 witness: updating a missing id on concrete stores errors and
leaves them unchanged. -/
theorem c5_update_missing_id_errors_witness :
    sampleStore.updateExpense "missing" {} =
      (Except.error "Expense not found", sampleStore)
    ∧ MongoStorage.updateExpense [] "missing" {} =
      (Except.error "Expense not found", []) :=
  ⟨(c5_update_missing_id_errors sampleStore [] "missing" {}).1 (by decide),
    (c5_update_missing_id_errors sampleStore [] "missing" {}).2 (by decide)⟩

/-- C3 counterexample: the claim says every listing read of the document
backend returns an empty result when the database call fails; but
getExpensesByUser has no try/catch and propagates the failure to the
caller instead of returning an empty result. -/
theorem c3_counterexample :
    MongoStorage.getExpensesByUser (some "database unavailable") [] [] "u1" 50 =
      Except.error "database unavailable" := rfl

/-- C3 (amended): of the document-backend listing reads only
getCategories absorbs a failed database call (returning []);
getExpensesByUser, getExpensesByUserAndDateRange, getInsightsByUser and
getBudgetsByUser have no try/catch and propagate the failure to the
caller. -/
theorem c3_only_getCategories_absorbs_failures (msg : String)
    (cats : List Category) (edocs : List Expense) (idocs : List Insight)
    (bdocs : List Budget) (u sd ed : String) (limit : Nat) :
    MongoStorage.getCategories (some msg) cats = []
    ∧ MongoStorage.getExpensesByUser (some msg) edocs cats u limit = Except.error msg
    ∧ MongoStorage.getExpensesByUserAndDateRange (some msg) edocs cats u sd ed =
        Except.error msg
    ∧ MongoStorage.getInsightsByUser (some msg) idocs u = Except.error msg
    ∧ MongoStorage.getBudgetsByUser (some msg) bdocs u = Except.error msg :=
  ⟨rfl, rfl, rfl, rfl, rfl⟩

/-- C4 counterexample: the claim says a delete targeting a nonexistent id
fails with an error; but deleteExpense on an id that is not stored
completes normally and leaves the store exactly as it was - a silent
no-op, not an error. -/
theorem c4_counterexample :
    MemStorage.deleteExpense sampleStore "missing" = sampleStore := by decide

/-- C4 (amended): the delete operations of both backends are silent
no-ops on a nonexistent id: they complete without an error and leave the
store unchanged (Map.delete and findByIdAndDelete simply do nothing);
only the update path reports NotFound. -/
theorem c4_delete_missing_is_noop (s : MemStorage) (docs : List Expense)
    (id : String) :
    ((∀ e ∈ s.expenses, e.id ≠ id) → s.deleteExpense id = s)
    ∧ ((∀ b ∈ s.budgets, b.id ≠ id) → s.deleteBudget id = s)
    ∧ ((∀ c ∈ s.categories, c.id ≠ id) → s.deleteCategory id = s)
    ∧ ((∀ e ∈ docs, e.id ≠ id) → MongoStorage.deleteExpense docs id = docs) := by
  refine ⟨?_, ?_, ?_, ?_⟩
  · intro h
    have hf : s.expenses.filter (fun e => !(e.id == id)) = s.expenses :=
      List.filter_eq_self.mpr (by intro e he; simpa using h e he)
    simp [MemStorage.deleteExpense, hf]
  · intro h
    have hf : s.budgets.filter (fun b => !(b.id == id)) = s.budgets :=
      List.filter_eq_self.mpr (by intro b hb; simpa using h b hb)
    simp [MemStorage.deleteBudget, hf]
  · intro h
    have hf : s.categories.filter (fun c => !(c.id == id)) = s.categories :=
      List.filter_eq_self.mpr (by intro c hc; simpa using h c hc)
    simp [MemStorage.deleteCategory, hf]
  · intro h
    exact List.filter_eq_self.mpr (by intro e he; simpa using h e he)

/-- C4 witness: deleting missing ids from the concrete sample store is a
no-op on every collection, via the amended theorem. -/
theorem c4_delete_missing_is_noop_witness :
    sampleStore.deleteExpense "nope" = sampleStore
    ∧ sampleStore.deleteBudget "nope" = sampleStore
    ∧ sampleStore.deleteCategory "nope" = sampleStore
    ∧ MongoStorage.deleteExpense [] "nope" = [] :=
  ⟨(c4_delete_missing_is_noop sampleStore [] "nope").1 (by decide),
    (c4_delete_missing_is_noop sampleStore [] "nope").2.1 (by decide),
    (c4_delete_missing_is_noop sampleStore [] "nope").2.2.1 (by decide),
    (c4_delete_missing_is_noop sampleStore [] "nope").2.2.2 (by decide)⟩

/-- C6: on every failure mode of the remote model call - the call throws,
the response body is empty, or the body is not valid JSON -
categorizeExpense returns the fixed fallback record
(category "shopping", confidence 0.1, default reasoning) and
generateInsights returns the fixed list of three encouragement insights;
both functions are total, so neither ever surfaces the failure to its
caller as an error. -/
theorem c6_ai_failures_yield_fallbacks (d : String) (amt : ℚ)
    (exps prev : List PromptExpense) (buds : List PromptBudget) :
    categorizeExpense d amt AiResult.throws = catFallback
    ∧ categorizeExpense d amt AiResult.emptyBody = catFallback
    ∧ categorizeExpense d amt AiResult.badJson = catFallback
    ∧ catFallback = ⟨"shopping", 1/10, "Default categorization due to AI service error"⟩
    ∧ generateInsights exps prev buds AiResult.throws = insightsFallback
    ∧ generateInsights exps prev buds AiResult.emptyBody = insightsFallback
    ∧ generateInsights exps prev buds AiResult.badJson = insightsFallback
    ∧ insightsFallback.length = 3 :=
  ⟨rfl, rfl, rfl, rfl, rfl, rfl, rfl, rfl⟩

/-- C7 counterexample: the claim says generateInsights returns exactly 3
records for every response of the remote model; but when the model
responds successfully with an empty insights array the function returns 0
records. -/
theorem c7_counterexample :
    (generateInsights [] [] [] (AiResult.parsed ⟨some []⟩)).length ≠ 3 := by decide

/-- C7 (amended): generateInsights returns exactly the 3 static fallback
records on every failure of the remote call; on a successful parse it
returns one normalized record per entry of the model's insights array
(the prompt and response schema request exactly 3, but the code does not
enforce the count), and every returned record carries a type and priority
drawn from the allowed enumerations. -/
theorem c7_insights_count (exps prev : List PromptExpense)
    (buds : List PromptBudget) :
    (∀ r : AiResult InsightsJson,
      r = AiResult.throws ∨ r = AiResult.emptyBody ∨ r = AiResult.badJson →
      generateInsights exps prev buds r = insightsFallback ∧
        (generateInsights exps prev buds r).length = 3)
    ∧ (∀ a : InsightsJson,
      (generateInsights exps prev buds (AiResult.parsed a)).length =
        (a.insights.getD []).length)
    ∧ (∀ r : AiResult InsightsJson, ∀ x ∈ generateInsights exps prev buds r,
      x.type ∈ ["alert", "goal", "warning", "recommendation"] ∧
        x.priority ∈ ["low", "medium", "high"]) := by
  refine ⟨?_, ?_, ?_⟩
  · rintro r (rfl | rfl | rfl) <;> exact ⟨rfl, rfl⟩
  · intro a
    simp [generateInsights]
  · have hfb : ∀ y ∈ insightsFallback,
        y.type ∈ ["alert", "goal", "warning", "recommendation"] ∧
          y.priority ∈ ["low", "medium", "high"] := by decide
    intro r x hx
    cases r with
    | parsed a =>
      simp only [generateInsights, List.mem_map] at hx
      obtain ⟨i, _, rfl⟩ := hx
      constructor
      · simp only [normalizeInsight]
        cases i.type with
        | none => decide
        | some t =>
          by_cases hc : (["alert", "goal", "warning", "recommendation"].contains t) = true
          · have hmem : t ∈ ["alert", "goal", "warning", "recommendation"] := by
              simpa using hc
            simp [hmem]
          · have hmem : t ∉ ["alert", "goal", "warning", "recommendation"] := by
              simpa using hc
            simp [hmem]
      · simp only [normalizeInsight]
        cases i.priority with
        | none => decide
        | some pr =>
          by_cases hc : (["low", "medium", "high"].contains pr) = true
          · have hmem : pr ∈ ["low", "medium", "high"] := by simpa using hc
            simp [hmem]
          · have hmem : pr ∉ ["low", "medium", "high"] := by simpa using hc
            simp [hmem]
    | throws => exact hfb x hx
    | emptyBody => exact hfb x hx
    | badJson => exact hfb x hx

/-- C7 witness: at concrete inputs the amended theorem yields the 3-record
fallback on a thrown call and the valid shape of a normalized record. -/
theorem c7_insights_count_witness :
    (generateInsights [] [] [] AiResult.throws = insightsFallback ∧
      (generateInsights [] [] [] AiResult.throws).length = 3)
    ∧ ((⟨"recommendation", "Track Your Expenses",
        "Continue logging your expenses to get personalized AI insights and recommendations.",
        "medium"⟩ : AIInsight).type ∈ ["alert", "goal", "warning", "recommendation"] ∧
      (⟨"recommendation", "Track Your Expenses",
        "Continue logging your expenses to get personalized AI insights and recommendations.",
        "medium"⟩ : AIInsight).priority ∈ ["low", "medium", "high"]) :=
  ⟨(c7_insights_count [] [] []).1 AiResult.throws (Or.inl rfl),
    (c7_insights_count [] [] []).2.2 AiResult.throws
      ⟨"recommendation", "Track Your Expenses",
        "Continue logging your expenses to get personalized AI insights and recommendations.",
        "medium"⟩ (by decide)⟩

/-- The lookup of a present category id is exactly the find over the
category list. -/
theorem resolveCategory_some (cats : List Category) (cid : String) :
    resolveCategory cats (some cid) = cats.find? (fun k => k.id == cid) := by
  cases h : cats.find? (fun k => k.id == cid) <;> simp [resolveCategory, h]

/-- Every entry of a bumped category map carries either the name and color
of an entry already stored under the same key, or - under the bumped key -
the freshly bumped-in name and color. -/
theorem mem_bumpCat_key {key nm cl : String} {amt : ℚ} :
    ∀ {m : List (String × CatAgg)} {kc : String × CatAgg},
      kc ∈ bumpCat key nm cl amt m →
      (∃ c0, (kc.1, c0) ∈ m ∧ kc.2.name = c0.name ∧ kc.2.color = c0.color) ∨
        (kc.1 = key ∧ kc.2.name = nm ∧ kc.2.color = cl) := by
  intro m
  induction m with
  | nil =>
    intro kc hkc
    simp only [bumpCat, List.mem_singleton] at hkc
    subst hkc
    exact Or.inr ⟨rfl, rfl, rfl⟩
  | cons head rest ih =>
    obtain ⟨k, c⟩ := head
    intro kc hkc
    by_cases h : key == k
    · rw [bumpCat, if_pos h] at hkc
      rcases List.mem_cons.mp hkc with rfl | htail
      · exact Or.inl ⟨c, List.mem_cons_self _ _, rfl, rfl⟩
      · exact Or.inl ⟨kc.2, List.mem_cons_of_mem _ htail, rfl, rfl⟩
    · rw [bumpCat, if_neg h] at hkc
      rcases List.mem_cons.mp hkc with rfl | htail
      · exact Or.inl ⟨c, List.mem_cons_self _ _, rfl, rfl⟩
      · rcases ih htail with ⟨c0, hc0, heq⟩ | hnew
        · exact Or.inl ⟨c0, List.mem_cons_of_mem _ hc0, heq⟩
        · exact Or.inr hnew

/-- Bumping a key leaves that key present in the map. -/
theorem bumpCat_key_present (key nm cl : String) (amt : ℚ) :
    ∀ m : List (String × CatAgg), ∃ c, (key, c) ∈ bumpCat key nm cl amt m := by
  intro m
  induction m with
  | nil => exact ⟨⟨nm, cl, amt⟩, List.mem_singleton.mpr rfl⟩
  | cons head rest ih =>
    obtain ⟨k, c⟩ := head
    by_cases h : key == k
    · refine ⟨{ c with amount := c.amount + amt }, ?_⟩
      rw [bumpCat, if_pos h]
      have hk : key = k := by simpa using h
      rw [hk]
      exact List.mem_cons_self _ _
    · obtain ⟨c0, hc0⟩ := ih
      refine ⟨c0, ?_⟩
      rw [bumpCat, if_neg h]
      exact List.mem_cons_of_mem _ hc0

/-- Bumping any key keeps every already-present key present. -/
theorem bumpCat_keeps_key {key nm cl : String} {amt : ℚ} {k : String} :
    ∀ {m : List (String × CatAgg)}, (∃ c, (k, c) ∈ m) →
      ∃ c, (k, c) ∈ bumpCat key nm cl amt m := by
  intro m
  induction m with
  | nil =>
    rintro ⟨c, hc⟩
    cases hc
  | cons head rest ih =>
    obtain ⟨k2, c2⟩ := head
    rintro ⟨c, hc⟩
    by_cases h : key == k2
    · rw [bumpCat, if_pos h]
      rcases List.mem_cons.mp hc with heq | htail
      · obtain ⟨rfl, rfl⟩ := Prod.mk.injEq .. |>.mp heq
        exact ⟨{ c with amount := c.amount + amt }, List.mem_cons_self _ _⟩
      · exact ⟨c, List.mem_cons_of_mem _ htail⟩
    · rw [bumpCat, if_neg h]
      rcases List.mem_cons.mp hc with heq | htail
      · obtain ⟨rfl, rfl⟩ := Prod.mk.injEq .. |>.mp heq
        exact ⟨c, List.mem_cons_self _ _⟩
      · obtain ⟨c0, hc0⟩ := ih ⟨c, htail⟩
        exact ⟨c0, List.mem_cons_of_mem _ hc0⟩

/-- The categoryMap fold keeps every key already present in the
accumulator. -/
theorem foldl_bumpCat_keeps_key {k : String} :
    ∀ (L : List ExpenseWithCategory) (m : List (String × CatAgg)),
      (∃ c, (k, c) ∈ m) →
      ∃ c, (k, c) ∈ L.foldl
        (fun m e => bumpCat (categoryKey e.exp.categoryId) (displayName e.category)
          (displayColor e.category) e.exp.amount m) m := by
  intro L
  induction L with
  | nil => exact fun m hm => hm
  | cons x L ih =>
    intro m hm
    rw [List.foldl_cons]
    exact ih _ (bumpCat_keeps_key hm)

/-- Every processed row's key is present in the categoryMap fold
result. -/
theorem foldl_bumpCat_key_present {e : ExpenseWithCategory} :
    ∀ {L : List ExpenseWithCategory}, e ∈ L → ∀ m,
      ∃ c, (categoryKey e.exp.categoryId, c) ∈ L.foldl
        (fun m x => bumpCat (categoryKey x.exp.categoryId) (displayName x.category)
          (displayColor x.category) x.exp.amount m) m := by
  intro L
  induction L with
  | nil => intro he; cases he
  | cons x L ih =>
    intro he m
    rw [List.foldl_cons]
    rcases List.mem_cons.mp he with rfl | he'
    · exact foldl_bumpCat_keeps_key L _ (bumpCat_key_present _ _ _ _ _)
    · exact ih he' _

/-- If every processed row that maps to key k carries the sentinel display
name and color (its category lookup came back empty), then every entry the
categoryMap fold stores under k carries the sentinel, regardless of what
the other rows and groups contain. -/
theorem foldl_bumpCat_key_sentinel {k : String} :
    ∀ (L : List ExpenseWithCategory),
      (∀ x ∈ L, categoryKey x.exp.categoryId = k →
        displayName x.category = "Uncategorized" ∧
          displayColor x.category = "#6b7280") →
      ∀ m, (∀ c, (k, c) ∈ m → c.name = "Uncategorized" ∧ c.color = "#6b7280") →
      ∀ c, (k, c) ∈ L.foldl
        (fun m x => bumpCat (categoryKey x.exp.categoryId) (displayName x.category)
          (displayColor x.category) x.exp.amount m) m →
        c.name = "Uncategorized" ∧ c.color = "#6b7280" := by
  intro L
  induction L with
  | nil => exact fun _ m hm => hm
  | cons x L ih =>
    intro hL m hm c hc
    rw [List.foldl_cons] at hc
    refine ih (fun y hy hk => hL y (List.mem_cons_of_mem _ hy) hk) _ ?_ c hc
    intro c' hc'
    rcases mem_bumpCat_key hc' with ⟨c0, hc0, hn, hcl⟩ | ⟨hk, hn, hcl⟩
    · obtain ⟨h1, h2⟩ := hm c0 hc0
      exact ⟨hn.trans h1, hcl.trans h2⟩
    · obtain ⟨h1, h2⟩ := hL x (List.mem_cons_self _ _) hk.symm
      exact ⟨hn.trans h1, hcl.trans h2⟩

/-- C9: an absent or dangling category reference never makes a read fail.
Both expense reads return such a row with a null category; a dangling
in-range expense of the user does appear in the date-range read, joined
with category null; and in getExpenseStats such an expense lands in a
categoryBreakdown entry named "Uncategorized" with color "#6b7280" even
when other expenses of the selection resolve live categories.  The id
side condition of the stats part only rules out a stored category whose
id is the empty string or the literal grouping key "uncategorized",
which the source cannot produce (in-memory ids are 9-character random
tokens, document ids are 24-character hex strings). -/
theorem c9_dangling_category_degrades (s : MemStorage) (u sd ed : String)
    (limit : Nat) :
    (∀ r ∈ s.getExpensesByUser u limit,
      r.category = resolveCategory s.categories r.exp.categoryId)
    ∧ (∀ r ∈ s.getExpensesByUserAndDateRange u sd ed,
      r.category = resolveCategory s.categories r.exp.categoryId)
    ∧ (∀ e ∈ s.expenses, e.userId = u →
        strLe sd e.date = true → strLe e.date ed = true →
        resolveCategory s.categories e.categoryId = none →
        (⟨e, none⟩ : ExpenseWithCategory) ∈ s.getExpensesByUserAndDateRange u sd ed)
    ∧ ((∀ c ∈ s.categories, c.id ≠ "" ∧ c.id ≠ "uncategorized") →
        ∀ e ∈ s.expenses, e.userId = u →
        strLe sd e.date = true → strLe e.date ed = true →
        resolveCategory s.categories e.categoryId = none →
        ∃ b ∈ (s.getExpenseStats u sd ed).categoryBreakdown,
          b.categoryName = "Uncategorized" ∧ b.color = "#6b7280") := by
  have hmem3 : ∀ e ∈ s.expenses, e.userId = u →
      strLe sd e.date = true → strLe e.date ed = true →
      resolveCategory s.categories e.categoryId = none →
      (⟨e, none⟩ : ExpenseWithCategory) ∈ s.getExpensesByUserAndDateRange u sd ed := by
    intro e he hu h1 h2 hres
    have hf : e ∈ s.expenses.filter
        (fun e => e.userId == u && strLe sd e.date && strLe e.date ed) :=
      List.mem_filter.mpr ⟨he, by simp [hu, h1, h2]⟩
    have hs : e ∈ sortLe dateDesc (s.expenses.filter
        (fun e => e.userId == u && strLe sd e.date && strLe e.date ed)) :=
      mem_sortLe.mpr hf
    have heq : (⟨e, none⟩ : ExpenseWithCategory) =
        ⟨e, resolveCategory s.categories e.categoryId⟩ := by rw [hres]
    rw [heq, MemStorage.getExpensesByUserAndDateRange]
    exact List.mem_map_of_mem _ hs
  refine ⟨?_, ?_, hmem3, ?_⟩
  · intro r hr
    exact (mem_getExpensesByUser hr).2.2
  · intro r hr
    exact (mem_getExpensesByUserAndDateRange hr).2.2.2.2
  · intro hids e he hu h1 h2 hres
    have hkey : ∀ x ∈ s.getExpensesByUserAndDateRange u sd ed,
        categoryKey x.exp.categoryId = categoryKey e.categoryId →
        displayName x.category = "Uncategorized" ∧
          displayColor x.category = "#6b7280" := by
      intro x hx hk
      have hxcat := (mem_getExpensesByUserAndDateRange hx).2.2.2.2
      have hxnone : resolveCategory s.categories x.exp.categoryId = none := by
        cases hcx : x.exp.categoryId with
        | none => rfl
        | some cx =>
          rw [resolveCategory_some, List.find?_eq_none]
          intro cc hcc hbeq
          have hcid : cc.id = cx := by simpa using hbeq
          by_cases hce : cx = ""
          · exact (hids cc hcc).1 (hcid.trans hce)
          · have hkx : categoryKey (some cx) = cx := by simp [categoryKey, hce]
            rw [hcx, hkx] at hk
            cases hce2 : e.categoryId with
            | none =>
              rw [hce2] at hk
              simp only [categoryKey] at hk
              exact (hids cc hcc).2 (hcid.trans hk)
            | some ce =>
              rw [hce2] at hk
              by_cases hce3 : ce = ""
              · have hkey2 : categoryKey (some ce) = "uncategorized" := by
                  simp [categoryKey, hce3]
                rw [hkey2] at hk
                exact (hids cc hcc).2 (hcid.trans hk)
              · have hkey2 : categoryKey (some ce) = ce := by
                  simp [categoryKey, hce3]
                rw [hkey2] at hk
                rw [hce2, resolveCategory_some, List.find?_eq_none] at hres
                exact hres cc hcc (by simp [hcid, hk])
      rw [hxcat, hxnone]
      exact ⟨rfl, rfl⟩
    have hrow := hmem3 e he hu h1 h2 hres
    obtain ⟨c, hc⟩ := foldl_bumpCat_key_present hrow []
    have hsent := foldl_bumpCat_key_sentinel
      (s.getExpensesByUserAndDateRange u sd ed) hkey []
      (by intro c' hc'; cases hc') c hc
    refine ⟨⟨c.name, c.amount, c.color⟩, ?_, hsent.1, hsent.2⟩
    simp only [MemStorage.getExpenseStats]
    apply mem_sortLe.mpr
    exact List.mem_map.mpr ⟨(categoryKey e.categoryId, c), hc, rfl⟩

/-- C9 witness: on the concrete mixed store - one live category next to a
dangling reference - the dangling expense is returned by the date-range
read with a null category and the stats contain an Uncategorized /
sentinel-color breakdown entry, via the theorem. -/
theorem c9_dangling_category_degrades_witness :
    (⟨⟨"b2", "u1", some "deadcat", 7, "Taxi", "upi", "2024-01-05", 20⟩, none⟩ :
        ExpenseWithCategory) ∈
      mixedStore.getExpensesByUserAndDateRange "u1" "2024-01-01" "2024-12-31"
    ∧ ∃ b ∈ (mixedStore.getExpenseStats "u1" "2024-01-01"
        "2024-12-31").categoryBreakdown,
        b.categoryName = "Uncategorized" ∧ b.color = "#6b7280" :=
  ⟨(c9_dangling_category_degrades mixedStore "u1" "2024-01-01" "2024-12-31"
        50).2.2.1
      ⟨"b2", "u1", some "deadcat", 7, "Taxi", "upi", "2024-01-05", 20⟩
      (by decide) rfl (by decide) (by decide) (by decide),
    (c9_dangling_category_degrades mixedStore "u1" "2024-01-01" "2024-12-31"
        50).2.2.2 (by decide)
      ⟨"b2", "u1", some "deadcat", 7, "Taxi", "upi", "2024-01-05", 20⟩
      (by decide) rfl (by decide) (by decide) (by decide)⟩

/-- C10: the expense-by-user read defaults to a cap of 50 rows and in
general returns at most limit rows, sorted newest date first, with the
number returned equal to min limit (count of the user's expenses); every
expense of the user that is omitted from the result has a date at most
every returned date (the cap keeps the latest-dated rows); the
document-backend read obeys the same cap; and the insight-generation
route reads the expense history through this capped call. -/
theorem c10_default_limit_caps_history (s : MemStorage) (u : String)
    (limit : Nat) (dbFail : Option String) (docs : List Expense)
    (cats : List Category) :
    s.getExpensesByUser u = s.getExpensesByUser u 50
    ∧ (s.getExpensesByUser u limit).length =
        min limit (s.expenses.filter (fun e => e.userId == u)).length
    ∧ List.Pairwise (fun a b => strLe b.exp.date a.exp.date = true)
        (s.getExpensesByUser u limit)
    ∧ (∀ e ∈ s.expenses, e.userId = u →
        e ∉ (s.getExpensesByUser u limit).map (fun r => r.exp) →
        ∀ r ∈ s.getExpensesByUser u limit, strLe e.date r.exp.date = true)
    ∧ (∀ l, MongoStorage.getExpensesByUser dbFail docs cats u limit = Except.ok l →
        l.length ≤ limit)
    ∧ (insightsRouteFetch s u).length ≤ 50 := by
  have htot : ∀ a b : Expense, dateDesc a b || dateDesc b a := by
    intro a b
    simpa [dateDesc] using strLe_total b.date a.date
  have htrans : ∀ a b c : Expense,
      dateDesc a b = true → dateDesc b c = true → dateDesc a c = true := by
    intro a b c h1 h2
    exact strLe_trans h2 h1
  have hmapexp : ∀ (l : List Expense),
      (l.map (fun e => (⟨e, resolveCategory s.categories e.categoryId⟩ :
        ExpenseWithCategory))).map (fun r => r.exp) = l := by
    intro l
    rw [List.map_map]
    rw [show ((fun r : ExpenseWithCategory => r.exp) ∘
      fun e => (⟨e, resolveCategory s.categories e.categoryId⟩ : ExpenseWithCategory)) =
      id from rfl]
    exact List.map_id l
  refine ⟨rfl, ?_, ?_, ?_, ?_, ?_⟩
  · simp only [MemStorage.getExpensesByUser, List.length_map, List.length_take,
      sortLe_length]
  · simp only [MemStorage.getExpensesByUser]
    rw [List.pairwise_map]
    exact List.Pairwise.sublist (List.take_sublist _ _) (pairwise_sortLe htot htrans _)
  · intro e he hu hnot r hr
    have hef : e ∈ s.expenses.filter (fun e => e.userId == u) :=
      List.mem_filter.mpr ⟨he, by simp [hu]⟩
    have hes : e ∈ sortLe dateDesc (s.expenses.filter (fun e => e.userId == u)) :=
      mem_sortLe.mpr hef
    have hmnot : (s.getExpensesByUser u limit).map (fun r => r.exp) =
        (sortLe dateDesc (s.expenses.filter (fun e => e.userId == u))).take limit := by
      simp only [MemStorage.getExpensesByUser]
      exact hmapexp _
    rw [hmnot] at hnot
    have hsplit : e ∈ (sortLe dateDesc
          (s.expenses.filter (fun e => e.userId == u))).take limit ++
        (sortLe dateDesc (s.expenses.filter (fun e => e.userId == u))).drop limit := by
      rw [List.take_append_drop]
      exact hes
    have hdrop : e ∈ (sortLe dateDesc
        (s.expenses.filter (fun e => e.userId == u))).drop limit := by
      rcases List.mem_append.mp hsplit with h | h
      · exact absurd h hnot
      · exact h
    simp only [MemStorage.getExpensesByUser, List.mem_map] at hr
    obtain ⟨e', he', rfl⟩ := hr
    have hpw := pairwise_sortLe htot htrans
      (s.expenses.filter (fun e => e.userId == u))
    rw [← List.take_append_drop limit
      (sortLe dateDesc (s.expenses.filter (fun e => e.userId == u)))] at hpw
    have hcross := (List.pairwise_append.mp hpw).2.2
    have := hcross e' he' e hdrop
    simpa [dateDesc] using this
  · intro l hl
    have hy := mongoFind_map_ok hl
    subst hy
    rw [List.length_map]
    exact List.length_take_le _ _
  · simp only [insightsRouteFetch, MemStorage.getExpensesByUser, List.length_map]
    exact List.length_take_le _ _

/-- C10 witness: on the concrete sample store with limit 1 the read
returns exactly one row and the omitted older expense is date-dominated
by the returned row, via the theorem. -/
theorem c10_default_limit_caps_history_witness :
    (sampleStore.getExpensesByUser "u1" 1).length =
      min 1 (sampleStore.expenses.filter (fun e => e.userId == "u1")).length
    ∧ ((sampleStore.getExpensesByUser "u1" 1).all
      (fun r => strLe "2024-01-01" r.exp.date)) = true := by
  constructor
  · exact (c10_default_limit_caps_history sampleStore "u1" 1 none [] []).2.1
  · apply List.all_eq_true.mpr
    intro r hr
    exact (c10_default_limit_caps_history sampleStore "u1" 1 none [] []).2.2.2.1
      ⟨"a1", "u1", some "deadcat", 5, "Lunch", "cash", "2024-01-01", 10⟩
      (by decide) rfl (by decide) r hr

end SpendSight
